import Mathlib

/-!
Verification of the Tiny BASIC interpreter in `src/tiny_basic.py`.

The interpreter stores a program as a dict from line number to statement
text, executes statements by dispatching on the leading keyword, and
evaluates expressions by handing a transformed source string (with `/`
replaced by `//`) to the host `eval` with a locals dictionary binding each
letter A-Z to either its integer value or, when the letter was `DIM`med, a
function that indexes the Python list backing the array.

This file embeds that behaviour shallowly:

* Expressions and conditions are embedded as trees (`Expr`, `Cond`); their
  evaluation (`evalE`, `eval_expression`, `eval_condition`) mirrors the
  semantics the host `eval` gives the transformed strings: `/` is Python
  floor division (`Int.fdiv`), a bare letter bound as an array evaluates to
  a function object and fails once `int()` is applied to the result, array
  access uses Python list indexing with negative-index wrap-around, and an
  empty expression string evaluates to 0 (`eval_expression` line 290-292).
* Statements are embedded already split into keyword plus parsed argument
  (`Stmt`), since in the source a statement is parsed at execution time by
  `execute_statement` / the `execute_program` loop.
* The interpreter state (`Interp`) carries the program store, the variable
  environment and the ordered list of printed messages (`Msg` models each
  `print(...)` f-string structurally, one constructor per call site).
* Exceptions raised by a statement are modelled by the `Option String`
  component returned by `execute_statement`; `execute_program` catches them
  and reports `Error on line {line}: {e}` as in the source `try/except`.
* The execution loop can diverge (`GOTO` cycles), so `execute_program` and
  its loop take a fuel parameter; fuel exhaustion returns the current state
  and is an artifact of the embedding, never reached in the concrete runs
  below.
* `SAVE`/`LOAD` persistence is a pure text pipeline; it is embedded
  separately at the character-list level in namespace `ProgramText`
  (`process_input`, `serialize`, `cmd_load`), because those commands never
  consult the statement semantics.
-/

namespace TinyBasic

/-- Expression trees over the forms the interpreter's expression strings can
contain: integer literals, bare letters, array accesses `L(e)`, unary minus
and the four binary operators.  (`eval_expression`, lines 276-371.) -/
inductive Expr where
  | lit (n : Int)
  | var (c : Char)
  | arr (c : Char) (idx : Expr)
  | neg (e : Expr)
  | add (a b : Expr)
  | sub (a b : Expr)
  | mul (a b : Expr)
  | div (a b : Expr)
deriving Repr, DecidableEq

/-- An expression argument position that may be the empty string: in the
source `eval_expression` receives the raw substring and returns 0 when it
strips to empty, so `none` models the empty/whitespace-only string. -/
abbrev OExpr := Option Expr

/-- Relational operators recognised by `eval_condition` (line 262). -/
inductive RelOp where
  | ge
  | le
  | ne
  | gt
  | lt
  | eq
deriving Repr, DecidableEq

/-- A condition: two expression strings around one relational operator
(`eval_condition`, lines 259-274).  Either side may be empty. -/
structure Cond where
  left : OExpr
  op : RelOp
  right : OExpr
deriving Repr, DecidableEq

/-- The variable environment: `self.variables` is a dict with exactly the
keys A-Z (the field models `self.variables` as a total function, 0 elsewhere is unobservable because
statements only mention letters), and `self.arrays` maps the `DIM`med
letters to Python lists (lines 8-9). -/
structure Env where
  vars : Char → Int
  arrays : Char → Option (List Int)

/-- Fresh environment: every letter 0, no arrays (`__init__`, lines 8-9,
also rebuilt by `cmd_new`, lines 164-165). -/
def initEnv : Env := ⟨fun _ => 0, fun _ => none⟩

/-- Source `self.variables[c] = v` (line 242). -/
def Env.setVar (e : Env) (c : Char) (v : Int) : Env :=
  { e with vars := fun x => if x = c then v else e.vars x }

/-- Source `self.arrays[c] = a` (lines 235, 253). -/
def Env.setArr (e : Env) (c : Char) (a : List Int) : Env :=
  { e with arrays := fun x => if x = c then some a else e.arrays x }

/-- Source `RuntimeError(f"Expression error '...': ...")` wrapper (line 371): any
exception escaping the host `eval` or the final `int()` is re-raised with
this prefix. -/
def exprErr (inner : String) : String := "Expression error: " ++ inner

/-- Source `TypeError` from calling scalar-bound letter with `(...)` syntax. -/
def notCallableErr : String := "int object is not callable"

/-- Source `TypeError` from applying `int()` to the function object a `DIM`med
letter is bound to when the letter is read bare (lines 355-362, 369). -/
def intOfFunctionErr : String := "int argument must be a number, not function"

/-- Source `RuntimeError(f"Index out of bounds for {n}")` (line 359). -/
def idxOobErr (c : Char) : String := "Index out of bounds for " ++ toString c

/-- Source `ZeroDivisionError` raised by Python `//` with divisor 0. -/
def divZeroErr : String := "integer division or modulo by zero"

/-- Python list indexing `a[i]` for an `int` index: indices `0 ≤ i <
len(a)` read directly, negative indices `-len(a) ≤ i < 0` wrap to `i +
len(a)`, and anything else raises `IndexError` (`array_accessor`, lines
355-359, where only `IndexError` maps to the out-of-bounds message). -/
def pyListGet (a : List Int) (i : Int) : Option Int :=
  if 0 ≤ i then a.get? i.toNat
  else if -(a.length : Int) ≤ i then a.get? (i + (a.length : Int)).toNat
  else none

/-- Evaluation of an expression tree against the environment, mirroring
what the host `eval` does with the locals dictionary built in
`eval_expression` (lines 348-371): a letter in `self.arrays` is bound to an
indexing function, any other letter to its scalar value; `/` was replaced
by `//` (line 297) so division is Python floor division, `Int.fdiv`;
errors are wrapped by `exprErr`.  Sub-expressions evaluate left to right
and the first error propagates, as in Python. -/
def evalE (env : Env) : Expr → Except String Int
  | .lit n => .ok n
  | .var c =>
    match env.arrays c with
    | some _ => .error (exprErr intOfFunctionErr)
    | none => .ok (env.vars c)
  | .arr c i =>
    match evalE env i with
    | .error m => .error m
    | .ok v =>
      match env.arrays c with
      | some a =>
        match pyListGet a v with
        | some x => .ok x
        | none => .error (exprErr (idxOobErr c))
      | none => .error (exprErr notCallableErr)
  | .neg e =>
    match evalE env e with
    | .error m => .error m
    | .ok v => .ok (-v)
  | .add a b =>
    match evalE env a with
    | .error m => .error m
    | .ok x =>
      match evalE env b with
      | .error m => .error m
      | .ok y => .ok (x + y)
  | .sub a b =>
    match evalE env a with
    | .error m => .error m
    | .ok x =>
      match evalE env b with
      | .error m => .error m
      | .ok y => .ok (x - y)
  | .mul a b =>
    match evalE env a with
    | .error m => .error m
    | .ok x =>
      match evalE env b with
      | .error m => .error m
      | .ok y => .ok (x * y)
  | .div a b =>
    match evalE env a with
    | .error m => .error m
    | .ok x =>
      match evalE env b with
      | .error m => .error m
      | .ok y => if y = 0 then .error (exprErr divZeroErr) else .ok (Int.fdiv x y)

/-- Source `eval_expression` (lines 276-371): strips the string, returns 0 when it
is empty (lines 290-292), otherwise evaluates it. -/
def eval_expression (env : Env) : OExpr → Except String Int
  | none => .ok 0
  | some e => evalE env e

/-- Source `if op == ...: return lval <op> rval` (lines 268-273). -/
def RelOp.apply : RelOp → Int → Int → Bool
  | .ge, a, b => a ≥ b
  | .le, a, b => a ≤ b
  | .ne, a, b => a ≠ b
  | .gt, a, b => a > b
  | .lt, a, b => a < b
  | .eq, a, b => a = b

/-- Source `eval_condition` (lines 259-274): evaluate both sides (each through
`eval_expression`) and apply the relational operator. -/
def eval_condition (env : Env) (c : Cond) : Except String Bool :=
  match eval_expression env c.left with
  | .error m => .error m
  | .ok l =>
    match eval_expression env c.right with
    | .error m => .error m
    | .ok r => .ok (c.op.apply l r)

/-- Statements, embedded as the leading keyword plus its already-parsed
argument, matching the split performed by `execute_statement` (lines 50-52)
and by the `execute_program` loop (lines 111-113).  `LET` targets carry the
outcome of the target regexes of `cmd_let` (lines 227, 240); `runCmd`
carries the raw argument text because `RUN`'s dispatch discards it (lines
73-74).  `SAVE`, `LOAD` and `QUIT` perform driver-level I/O and are
modelled separately (namespace `ProgramText`), not as storable statements. -/
inductive Stmt where
  | print (e : OExpr)
  | letS (c : Char) (e : OExpr)
  | letA (c : Char) (idx : OExpr) (e : OExpr)
  | goto (e : OExpr)
  | ifThen (cnd : Cond) (target : OExpr)
  | dim (c : Char) (size : OExpr)
  | endCmd
  | runCmd (arg : String)
  | listCmd
  | newCmd
  | unknown (w : String)
deriving Repr, DecidableEq

/-- Every `print(...)` the interpreter can emit, one constructor per call
site, carrying the interpolated values structurally. -/
inductive Msg where
  | printed (v : Int)
  | lineNotFound (s : Nat)
  | lineNotFoundInProgram (t : Int)
  | syntaxErrorInIf (line : Nat)
  | errorOnLine (line : Nat) (e : String)
  | listed (line : Nat) (s : Stmt)
  | unknownCommand (w : String)
deriving Repr, DecidableEq

/-- Which numbers appear interpolated in the printed text of a message
(used to state reporting claims): `printed` prints the value itself,
`lineNotFound`/`lineNotFoundInProgram` interpolate only the missing line,
`syntaxErrorInIf`/`errorOnLine`/`listed` interpolate the current line. -/
def Msg.mentionsNum : Msg → Int → Bool
  | .printed v, n => v = n
  | .lineNotFound s, n => (s : Int) = n
  | .lineNotFoundInProgram t, n => t = n
  | .syntaxErrorInIf l, n => (l : Int) = n
  | .errorOnLine l _, n => (l : Int) = n
  | .listed l _, n => (l : Int) = n
  | .unknownCommand _, _ => false

/-- Interpreter state: the program store `self.program` (a dict line number
to statement, with unique keys), the variable environment, and the ordered
output printed so far. -/
structure Interp where
  program : List (Nat × Stmt)
  env : Env
  output : List Msg

/-- Append one printed message. -/
def Interp.emit (st : Interp) (m : Msg) : Interp :=
  { st with output := st.output ++ [m] }

/-- Insert `n` keeping ascending order (used to model Python `sorted`). -/
def insertSorted (n : Nat) : List Nat → List Nat
  | [] => [n]
  | m :: rest => if n ≤ m then n :: m :: rest else m :: insertSorted n rest

/-- Source `sorted(keys)` (lines 95, 168, 180). -/
def sortNats (l : List Nat) : List Nat := l.foldr insertSorted []

/-- Source `lines = sorted(self.program.keys())` (line 95). -/
def linesOf (p : List (Nat × Stmt)) : List Nat := sortNats (p.map Prod.fst)

/-- Source `lines.index(t)` (lines 100, 119, 139): position of the first
occurrence, `none` modelling the `ValueError`. -/
def idxOfIntAux : List Nat → Int → Nat → Option Nat
  | [], _, _ => none
  | n :: rest, t, k => if (n : Int) = t then some k else idxOfIntAux rest t (k + 1)

def idxOfInt (l : List Nat) (t : Int) : Option Nat := idxOfIntAux l t 0

/-- Source `str(KeyError(line_num))`: the text of the exception raised by
`self.program[line_num]` when the line was deleted mid-run (line 107). -/
def keyErr (n : Nat) : String := toString n

/-- Source `RuntimeError(f"Array index out of bounds: {name}({idx})")`
(line 237). -/
def letOobErr (c : Char) (i : Int) : String :=
  "Array index out of bounds: " ++ toString c ++ "(" ++ toString i ++ ")"

/-- Source `RuntimeError(f"Array not defined: {name}")` (line 239). -/
def arrNotDefErr (c : Char) : String := "Array not defined: " ++ toString c

/-- Source `RuntimeError` for direct-mode `GOTO` (line 65). -/
def gotoDirectErr : String :=
  "GOTO can only be used within a program or is handled by the runner"

/-- Source `RuntimeError` for direct-mode `IF` (line 67). -/
def ifDirectErr : String := "IF can only be used within a program"

/-- Source `cmd_new` (lines 162-165): clear the program, re-initialise all
scalars to 0, clear the arrays. -/
def cmd_new (st : Interp) : Interp :=
  { st with program := [], env := initEnv }

/-- Source `cmd_list` (lines 167-169): print each stored line in ascending order.
(The source prints the stored text; the model carries the statement.) -/
def cmd_list (st : Interp) : Interp :=
  { st with
    output := st.output ++
      (linesOf st.program).filterMap
        (fun n => (st.program.lookup n).map (Msg.listed n)) }

/-- Source `cmd_dim` (lines 246-255): evaluate the size expression and bind the
letter to a fresh list `[0] * (size + 1)` (Python yields `[]` when
`size + 1 ≤ 0`, hence the `toNat` clamp).  The raised `RuntimeError` for a
malformed argument is unrepresentable here because `Stmt.dim` carries an
argument already matching the regex. -/
def cmd_dim (st : Interp) (c : Char) (size : OExpr) : Interp × Option String :=
  match eval_expression st.env size with
  | .error m => (st, some m)
  | .ok n => ({ st with env := st.env.setArr c (List.replicate (n + 1).toNat 0) }, none)

/-- Source `cmd_let` (lines 212-244) for a scalar target: the right-hand side is
evaluated first (line 220), then stored (line 242).  No check against
`self.arrays` is made. -/
def cmd_let_scalar (st : Interp) (c : Char) (e : OExpr) : Interp × Option String :=
  match eval_expression st.env e with
  | .error m => (st, some m)
  | .ok v => ({ st with env := st.env.setVar c v }, none)

/-- Source `cmd_let` (lines 212-244) for an array-element target `c(idx)`: value
first (line 220), then the index (line 232), then the membership and
bounds checks `0 <= idx < len` (lines 233-239; no negative wrap-around on
writes). -/
def cmd_let_array (st : Interp) (c : Char) (idx : OExpr) (e : OExpr) :
    Interp × Option String :=
  match eval_expression st.env e with
  | .error m => (st, some m)
  | .ok v =>
    match eval_expression st.env idx with
    | .error m => (st, some m)
    | .ok i =>
      match st.env.arrays c with
      | some a =>
        if 0 ≤ i ∧ i < (a.length : Int) then
          ({ st with env := st.env.setArr c (a.set i.toNat v) }, none)
        else (st, some (letOobErr c i))
      | none => (st, some (arrNotDefErr c))

/-- Source `cmd_print` (lines 199-210): evaluate the (single) expression and print
the result. -/
def cmd_print (st : Interp) (e : OExpr) : Interp × Option String :=
  match eval_expression st.env e with
  | .error m => (st, some m)
  | .ok v => (st.emit (.printed v), none)

mutual

/-- Source `execute_statement` (lines 45-89), for the commands it handles itself;
the second component is the exception the statement raised, if any (in
direct mode the driver prints it, inside `execute_program` it is caught at
line 154).  `END` is a no-op here (line 72).  `RUN` ignores its argument
(lines 73-74).  Fuel only decreases on the `RUN` recursion. -/
def execute_statement : Nat → Interp → Stmt → Interp × Option String
  | _, st, .print e => cmd_print st e
  | _, st, .letS c e => cmd_let_scalar st c e
  | _, st, .letA c idx e => cmd_let_array st c idx e
  | _, st, .goto _ => (st, some gotoDirectErr)
  | _, st, .ifThen _ _ => (st, some ifDirectErr)
  | _, st, .dim c size => cmd_dim st c size
  | _, st, .endCmd => (st, none)
  | 0, st, .runCmd _ => (st, none)
  | fuel + 1, st, .runCmd _ => (cmd_run fuel st, none)
  | _, st, .listCmd => (cmd_list st, none)
  | _, st, .newCmd => (cmd_new st, none)
  | _, st, .unknown w => (st.emit (.unknownCommand w), none)

/-- Source `cmd_run` (lines 171-172): always starts `execute_program` with no
start line. -/
def cmd_run : Nat → Interp → Interp
  | 0, st => st
  | fuel + 1, st => execute_program fuel st none

/-- Source `execute_program` (lines 91-104): empty program returns silently; a
given start line is located in the sorted line list, `Line {s} not found.`
reported when absent; then the loop runs from the chosen index. -/
def execute_program : Nat → Interp → Option Nat → Interp
  | 0, st, _ => st
  | fuel + 1, st, start =>
    if st.program = [] then st
    else
      match start with
      | none => progLoop fuel st (linesOf st.program) 0
      | some s =>
        match idxOfInt (linesOf st.program) (s : Int) with
        | some i => progLoop fuel st (linesOf st.program) i
        | none => st.emit (.lineNotFound s)

/-- The `while 0 <= pc_idx < len(lines)` loop of `execute_program` (lines
105-158).  `lines` is fixed at entry while `self.program` is consulted
afresh each iteration (line 107), so a program mutated mid-run can raise
`KeyError`, reported through the generic handler (lines 154-156).  `GOTO`
and `IF` manage `pc_idx` directly (lines 116-146), `END` breaks (149), and
everything else goes through `execute_statement` (line 152) with raised
exceptions reported as `Error on line {line_num}: {e}` and the run aborted
(lines 154-156). -/
def progLoop : Nat → Interp → List Nat → Nat → Interp
  | 0, st, _, _ => st
  | fuel + 1, st, lines, pc =>
    if h : pc < lines.length then
      match st.program.lookup lines[pc] with
      | none => st.emit (.errorOnLine lines[pc] (keyErr lines[pc]))
      | some s =>
        match s with
        | .goto e =>
          match eval_expression st.env e with
          | .error m => st.emit (.errorOnLine lines[pc] m)
          | .ok t =>
            match idxOfInt lines t with
            | some i => progLoop fuel st lines i
            | none => st.emit (.lineNotFoundInProgram t)
        | .ifThen cnd tgt =>
          match eval_condition st.env cnd with
          | .error m => st.emit (.errorOnLine lines[pc] m)
          | .ok b =>
            if b then
              match eval_expression st.env tgt with
              | .error m => st.emit (.errorOnLine lines[pc] m)
              | .ok t =>
                match idxOfInt lines t with
                | some i => progLoop fuel st lines i
                | none => st.emit (.lineNotFoundInProgram t)
            else progLoop fuel st lines (pc + 1)
        | .endCmd => st
        | s2 =>
          match execute_statement fuel st s2 with
          | (st2, none) => progLoop fuel st2 lines (pc + 1)
          | (st2, some m) => st2.emit (.errorOnLine lines[pc] m)
    else st

end

namespace ProgramText

/-!
Character-level model of the program-text pipeline: `process_input` (lines
25-43), `cmd_save` (lines 174-184) and `cmd_load` (lines 186-197).  These
never consult the statement semantics: the store maps each line number to
the stored statement text (`self.program[line_num] = code`), and `SAVE`
writes the plain `"{line_num} {code}"` lines that `LOAD` feeds back through
`process_input`.  Strings are modelled as `List Char`.
-/

abbrev Chars := List Char

/-- The whitespace characters `str.strip` and `\s` recognise in ASCII. -/
def isSp (c : Char) : Bool :=
  c = ' ' || c = '\t' || c = '\n' || c = '\r' || c = '\x0b' || c = '\x0c'

/-- Python `str.strip()`: drop leading and trailing whitespace. -/
def trimC (l : Chars) : Chars :=
  ((l.dropWhile isSp).reverse.dropWhile isSp).reverse

/-- The decimal digit characters (used to model the `f"{line_num} ..."`
formatting of a nonnegative integer). -/
def digitChar : Nat → Char
  | 0 => '0'
  | 1 => '1'
  | 2 => '2'
  | 3 => '3'
  | 4 => '4'
  | 5 => '5'
  | 6 => '6'
  | 7 => '7'
  | 8 => '8'
  | _ => '9'

/-- Decimal rendering helper: most significant digits first; the fuel is
structural only (any fuel at least the digit count gives the rendering). -/
def natReprAux : Nat → Nat → Chars
  | 0, _ => []
  | fuel + 1, n => if n = 0 then [] else natReprAux fuel (n / 10) ++ [digitChar (n % 10)]

/-- Decimal rendering of a line number, as the f-string interpolation in
`cmd_save` (line 181) produces it. -/
def natRepr (n : Nat) : Chars :=
  if n = 0 then ['0'] else natReprAux n n

/-- Numeric value of one digit character (`int()` works digit-wise). -/
def digitVal (c : Char) : Nat := c.toNat - 48

/-- Source `int(digit-string)` (line 33): only ever applied to the nonempty
all-digit match of `^(\d+)`. -/
def charsToNat (l : Chars) : Nat :=
  Nat.ofDigits 10 ((l.map digitVal).reverse)

/-- The program store as `self.program` sees it: a dict from line number to
stored statement text, in insertion order, keys unique. -/
abbrev Store := List (Nat × Chars)

/-- Source `self.program[n] = c` (line 36): replace in place or append. -/
def storeSet : Store → Nat → Chars → Store
  | [], n, c => [(n, c)]
  | (m, d) :: rest, n, c =>
    if m = n then (n, c) :: rest else (m, d) :: storeSet rest n c

/-- Source `del self.program[n]` (lines 39-40), a no-op when absent. -/
def storeDel : Store → Nat → Store
  | [], _ => []
  | (m, d) :: rest, n => if m = n then rest else (m, d) :: storeDel rest n

/-- Source `process_input` (lines 25-43): strip the line; ignore it when empty;
when it starts with digits (`^(\d+)\s*(.*)` — the digit run is maximal and
`group(2).strip()` equals stripping everything after the digits), store or
delete the numbered line; otherwise hand the statement text back for direct
execution (modelled by returning it; direct execution lives in the
statement model). -/
def process_input (p : Store) (line : Chars) : Store × Option Chars :=
  if trimC line = [] then (p, none)
  else if (trimC line).takeWhile Char.isDigit = [] then (p, some (trimC line))
  else if trimC ((trimC line).drop ((trimC line).takeWhile Char.isDigit).length) = [] then
    (storeDel p (charsToNat ((trimC line).takeWhile Char.isDigit)), none)
  else
    (storeSet p (charsToNat ((trimC line).takeWhile Char.isDigit))
      (trimC ((trimC line).drop ((trimC line).takeWhile Char.isDigit).length)), none)

/-- The `(line number, stored text)` pairs in ascending line order, as both
`cmd_save` and `cmd_list` iterate them (lines 168, 180). -/
def entriesSorted (p : Store) : Store :=
  (sortNats (p.map Prod.fst)).filterMap
    (fun n => (p.lookup n).map (fun c => (n, c)))

/-- Source `cmd_save` (lines 174-184): the sequence of `f"{line_num} {code}"`
text lines written to the file, one per stored line, ascending. -/
def serialize (p : Store) : List Chars :=
  (entriesSorted p).map (fun e => natRepr e.1 ++ ' ' :: e.2)

/-- Source `cmd_load` (lines 186-197): clear the store, then feed each file line
through `process_input` (line 192-194).  Lines without a leading number
would be executed directly and leave the store untouched, which the fold
models by keeping only the store component. -/
def cmd_load (lines : List Chars) : Store :=
  lines.foldl (fun q line => (process_input q line).1) []

/-- Well-formedness of one stored statement text: nonempty and already
stripped (equivalently: first and last characters are not whitespace).
`process_input` only ever stores `trimC` images and discards empties
(lines 34-36). -/
def wfCode (c : Chars) : Bool :=
  !c.isEmpty && c.head?.all (fun a => !isSp a) && c.getLast?.all (fun a => !isSp a)

/-- Well-formedness of a store: distinct keys (a dict) and well-formed
stored texts. -/
def wfStore (p : Store) : Prop :=
  (p.map Prod.fst).Nodup ∧ ∀ e ∈ p, wfCode e.2 = true

end ProgramText

/-- Statements that do not touch the program store when executed: only
`NEW` clears it (`cmd_new`, line 163); `LOAD`, the other mutator, is not a
storable statement in this model. -/
def noNew : Stmt → Bool
  | .newCmd => false
  | _ => true

/-- A program none of whose statements clears the store. -/
def progNoNew (p : List (Nat × Stmt)) : Bool := p.all (fun e => noNew e.2)

/-- Statements that do not modify the variable environment when executed:
`LET`, `DIM` and `NEW` are the writers; `RUN` is neutral as long as the
program it re-runs is (handled by `progEnvNeutral`). -/
def envNeutral : Stmt → Bool
  | .letS _ _ => false
  | .letA _ _ _ => false
  | .dim _ _ => false
  | .newCmd => false
  | _ => true

/-- A program none of whose statements writes the environment. -/
def progEnvNeutral (p : List (Nat × Stmt)) : Bool := p.all (fun e => envNeutral e.2)

/-- Environment-neutral statements excluding `RUN` (whose effect depends on
the stored program). -/
def directEnvNeutral : Stmt → Bool
  | .letS _ _ => false
  | .letA _ _ _ => false
  | .dim _ _ => false
  | .newCmd => false
  | .runCmd _ => false
  | _ => true

/-! Concrete interpreter states used by the theorems below. -/

/-- A fresh interpreter (`__init__`, lines 6-10). -/
def emptyInterp : Interp := ⟨[], initEnv, []⟩

/-- State after direct `DIM A(3)`. -/
def c1state : Interp := (execute_statement 1 emptyInterp (.dim 'A' (some (.lit 3)))).1

/-- A stored program `10 LET A = 1`. -/
def c2state : Interp := ⟨[(10, .letS 'A' (some (.lit 1)))], initEnv, []⟩

/-- State after direct `DIM B(2)` then `LET B(2) = 9`. -/
def c3state : Interp :=
  (execute_statement 1 (execute_statement 1 emptyInterp (.dim 'B' (some (.lit 2)))).1
    (.letA 'B' (some (.lit 2)) (some (.lit 9)))).1

/-- A stored program `10 GOTO 99`, `20 PRINT 1`. -/
def c4state : Interp := ⟨[(10, .goto (some (.lit 99))), (20, .print (some (.lit 1)))], initEnv, []⟩

/-- The spec's control-flow test program: `10 LET A = 1`, `20 IF A = 1 THEN
40`, `30 LET A = 99`, `40 PRINT A`. -/
def c6state : Interp :=
  ⟨[(10, .letS 'A' (some (.lit 1))),
    (20, .ifThen ⟨some (.var 'A'), .eq, some (.lit 1)⟩ (some (.lit 40))),
    (30, .letS 'A' (some (.lit 99))),
    (40, .print (some (.var 'A')))], initEnv, []⟩

/-- The same program with line 10 storing `LET A = 2`, so the `IF`
condition is false. -/
def c6stateF : Interp :=
  ⟨[(10, .letS 'A' (some (.lit 2))),
    (20, .ifThen ⟨some (.var 'A'), .eq, some (.lit 1)⟩ (some (.lit 40))),
    (30, .letS 'A' (some (.lit 99))),
    (40, .print (some (.var 'A')))], initEnv, []⟩

/-- A stored program whose single line is `10 NEW`. -/
def c8state : Interp := ⟨[(10, .newCmd)], initEnv, []⟩

/-- A stored program `10 PRINT 1` (mutates nothing). -/
def c8neutral : Interp := ⟨[(10, .print (some (.lit 1)))], initEnv, []⟩

/-- An environment with `A = 7` set before any `RUN`. -/
def c10env : Env := initEnv.setVar 'A' 7

/-- A stored program `10 PRINT A` over that environment. -/
def c10state : Interp := ⟨[(10, .print (some (.var 'A')))], c10env, []⟩

/-- A concrete two-line stored program text (insertion order not ascending)
used to witness the save/load round trip. -/
def c7store : ProgramText.Store :=
  [(20, "PRINT A".toList), (10, "LET A = 5".toList)]

deriving instance DecidableEq for Except

/-! ## Theorems -/

/-- C6: running the stored program `10 LET A = 1`, `20 IF A = 1 THEN 40`,
`30 LET A = 99`, `40 PRINT A` from line 10 outputs exactly `1` (the true
condition jumps to line 40, skipping line 30), and with line 10 storing
`LET A = 2` instead, the false condition falls through to line 30 and the
run outputs `99`. -/
theorem tb_c6 :
    (execute_program 20 c6state (some 10)).output = [.printed 1] ∧
    (execute_program 20 c6stateF (some 10)).output = [.printed 99] := by
  constructor <;> decide

/-- C9: an empty expression evaluates to 0 instead of failing: for every
environment, `eval_expression` of the empty string is `0`, `PRINT` with no
argument prints `0`, and `LET c =` with an empty right-hand side assigns
`0` to the letter, raising nothing. -/
theorem tb_c9 :
    (∀ env : Env, eval_expression env none = .ok 0) ∧
    (∀ (fuel : Nat) (st : Interp),
      execute_statement fuel st (.print none) = (st.emit (.printed 0), none)) ∧
    (∀ (fuel : Nat) (st : Interp) (c : Char),
      execute_statement fuel st (.letS c none) = ({ st with env := st.env.setVar c 0 }, none)) := by
  refine ⟨fun env => rfl, fun fuel st => ?_, fun fuel st c => ?_⟩
  · cases fuel <;> rfl
  · cases fuel <;> rfl

/-- C5: division is Python floor division: `PRINT 7 / 2` prints `3`,
`PRINT (-7) / 2` prints `-4`; in general a quotient with nonzero divisor
deterministically evaluates to `Int.fdiv`, which for positive divisors is
characterised as the floor of the exact quotient:
`b * q ≤ a < b * (q + 1)`. -/
theorem tb_c5 :
    (execute_statement 1 emptyInterp (.print (some (.div (.lit 7) (.lit 2))))).1.output =
      [.printed 3] ∧
    (execute_statement 1 emptyInterp (.print (some (.div (.neg (.lit 7)) (.lit 2))))).1.output =
      [.printed (-4)] ∧
    (∀ (env : Env) (a b : Int), b ≠ 0 →
      evalE env (.div (.lit a) (.lit b)) = .ok (Int.fdiv a b)) ∧
    (∀ a b : Int, 0 < b →
      b * Int.fdiv a b ≤ a ∧ a < b * (Int.fdiv a b + 1)) := by
  refine ⟨by decide, by decide, fun env a b h => ?_, fun a b hb => ?_⟩
  · simp [evalE, h]
  · rw [Int.fdiv_eq_ediv _ (le_of_lt hb)]
    constructor
    · calc b * (a / b) = a / b * b := by ring
        _ ≤ a := Int.ediv_mul_le a (ne_of_gt hb)
    · calc a < (a / b + 1) * b := Int.lt_ediv_add_one_mul_self a hb
        _ = b * (a / b + 1) := by ring

/-- Witness for C5 at `a = -7`, `b = 2`. -/
theorem tb_c5_witness :
    ((2 : Int) ≠ 0 ∧ evalE initEnv (.div (.lit (-7)) (.lit 2)) = .ok (Int.fdiv (-7) 2)) ∧
    ((0 : Int) < 2 ∧ 2 * Int.fdiv (-7) 2 ≤ -7 ∧ (-7 : Int) < 2 * (Int.fdiv (-7) 2 + 1)) :=
  ⟨⟨by decide, tb_c5.2.2.1 initEnv (-7) 2 (by decide)⟩,
   ⟨by decide, tb_c5.2.2.2 (-7) 2 (by decide)⟩⟩

/-- C1 counterexample: after `DIM A(3)`, the scalar write `LET A = 5`
does not fail at all (no `TypeMismatch`, no exception): it succeeds,
stores 5 in the scalar table, and the array binding survives alongside it,
so the letter holds a scalar and an array simultaneously. -/
theorem tb_c1_counterexample :
    (execute_statement 1 c1state (.letS 'A' (some (.lit 5)))).2 = none ∧
    (execute_statement 1 c1state (.letS 'A' (some (.lit 5)))).1.env.vars 'A' = 5 ∧
    (execute_statement 1 c1state (.letS 'A' (some (.lit 5)))).1.env.arrays 'A' =
      some [0, 0, 0, 0] := by
  refine ⟨by decide, by decide, by decide⟩

/-- C1 amended: for a letter currently bound as an array, reading it bare
does fail (the letter is bound to a function object and the final `int()`
raises), but writing it with `LET c = v` silently succeeds, updating the
scalar table and leaving the array binding in place — scalar and array
coexist rather than excluding each other. -/
theorem tb_c1 (st : Interp) (c : Char) (a : List Int) (v : Int) (fuel : Nat)
    (h : st.env.arrays c = some a) :
    evalE st.env (.var c) = .error (exprErr intOfFunctionErr) ∧
    execute_statement fuel st (.letS c (some (.lit v))) =
      ({ st with env := st.env.setVar c v }, none) ∧
    (st.env.setVar c v).arrays c = some a := by
  refine ⟨?_, ?_, ?_⟩
  · simp [evalE, h]
  · cases fuel <;> rfl
  · simpa [Env.setVar] using h

/-- Witness for C1 at the state reached by `DIM A(3)`. -/
theorem tb_c1_witness :
    c1state.env.arrays 'A' = some [0, 0, 0, 0] ∧
    (evalE c1state.env (.var 'A') = .error (exprErr intOfFunctionErr) ∧
     execute_statement 3 c1state (.letS 'A' (some (.lit 5))) =
       ({ c1state with env := c1state.env.setVar 'A' 5 }, none) ∧
     (c1state.env.setVar 'A' 5).arrays 'A' = some [0, 0, 0, 0]) :=
  ⟨by decide, tb_c1 c1state 'A' [0, 0, 0, 0] 5 3 (by decide)⟩

/-- C2 counterexample: with the stored program `10 LET A = 1`, the direct
statement `RUN 999` does not fail and does not report `line not found`
even though 999 is not a stored line: its argument is discarded, the run
starts at index 0 and executes line 10 (`A` becomes 1, nothing is
printed). -/
theorem tb_c2_counterexample :
    (execute_statement 10 c2state (.runCmd "999")).2 = none ∧
    (execute_statement 10 c2state (.runCmd "999")).1.output = [] ∧
    (execute_statement 10 c2state (.runCmd "999")).1.env.vars 'A' = 1 := by
  refine ⟨by decide, by decide, by decide⟩

/-- C2 amended: the `RUN` statement ignores any argument and always starts
`execute_program` with no start line (hence at index 0).  Only a direct
call to `execute_program` with an explicit start line uses it: a stored
start line enters the loop at its index, a missing start line on a
nonempty program reports `Line s not found.` and executes nothing, and on
an empty program `execute_program` returns silently whatever the start
line. -/
theorem tb_c2 :
    (∀ (fuel : Nat) (st : Interp) (arg : String),
      execute_statement (fuel + 1) st (.runCmd arg) = (cmd_run fuel st, none)) ∧
    (∀ (fuel : Nat) (st : Interp), cmd_run (fuel + 1) st = execute_program fuel st none) ∧
    (∀ (fuel : Nat) (st : Interp) (s i : Nat), st.program ≠ [] →
      idxOfInt (linesOf st.program) (s : Int) = some i →
      execute_program (fuel + 1) st (some s) = progLoop fuel st (linesOf st.program) i) ∧
    (∀ (fuel : Nat) (st : Interp) (s : Nat), st.program ≠ [] →
      idxOfInt (linesOf st.program) (s : Int) = none →
      execute_program (fuel + 1) st (some s) = st.emit (.lineNotFound s)) ∧
    (∀ (fuel : Nat) (st : Interp) (s : Nat), st.program = [] →
      execute_program (fuel + 1) st (some s) = st) := by
  refine ⟨fun fuel st arg => rfl, fun fuel st => rfl, fun fuel st s i hne hidx => ?_,
    fun fuel st s hne hidx => ?_, fun fuel st s he => ?_⟩
  · simp [execute_program, hne, hidx]
  · simp [execute_program, hne, hidx]
  · simp [execute_program, he]

/-- Witness for C2: starting the program `10 LET A = 1` at the absent
line 999 reports `Line 999 not found.` and executes nothing. -/
theorem tb_c2_witness :
    c2state.program ≠ [] ∧
    idxOfInt (linesOf c2state.program) (999 : Nat) = none ∧
    execute_program 4 c2state (some 999) = c2state.emit (.lineNotFound 999) :=
  ⟨by decide, by decide, tb_c2.2.2.2.1 3 c2state 999 (by decide) (by decide)⟩

/-- C3 counterexample: after `DIM B(2)` and `LET B(2) = 9`, reading the
negative index `B(-1)` does not fail with an out-of-bounds error as the
claim requires for every negative index: Python list indexing wraps it
around to the last element and returns the stored 9. -/
theorem tb_c3_counterexample :
    c3state.env.arrays 'B' = some [0, 0, 9] ∧
    evalE c3state.env (.arr 'B' (.lit (-1))) = .ok 9 := by
  refine ⟨by decide, by decide⟩

/-- C3 amended: for a letter bound to an array of length `n + 1` (created
by `DIM c(n)`), reading `c(i)` succeeds exactly when `-(n+1) ≤ i ≤ n`:
indices `0 ≤ i ≤ n` return element `i`, negative indices `-(n+1) ≤ i < 0`
wrap around to element `i + n + 1`, and only indices outside that doubled
range fail with the index-out-of-bounds expression error. -/
theorem tb_c3 (env : Env) (c : Char) (a : List Int) (i : Int)
    (h : env.arrays c = some a) :
    (0 ≤ i → i < (a.length : Int) →
      evalE env (.arr c (.lit i)) = .ok (a.getD i.toNat 0)) ∧
    (i < 0 → -(a.length : Int) ≤ i →
      evalE env (.arr c (.lit i)) = .ok (a.getD (i + (a.length : Int)).toNat 0)) ∧
    ((i < -(a.length : Int) ∨ (a.length : Int) ≤ i) →
      evalE env (.arr c (.lit i)) = .error (exprErr (idxOobErr c))) := by
  refine ⟨fun h0 hlt => ?_, fun hneg hge => ?_, fun hout => ?_⟩
  · have hk : i.toNat < a.length := by omega
    simp [evalE, h, pyListGet, if_pos h0, List.getElem?_eq_getElem hk]
  · have h0 : ¬ (0 ≤ i) := by omega
    have hk : (i + (a.length : Int)).toNat < a.length := by omega
    simp [evalE, h, pyListGet, h0, if_pos hge, List.getElem?_eq_getElem hk]
  · rcases hout with hlow | hhigh
    · have h0 : ¬ (0 ≤ i) := by omega
      have h1 : ¬ (-(a.length : Int) ≤ i) := by omega
      simp [evalE, h, pyListGet, h0, h1]
    · have h0 : 0 ≤ i := by omega
      have hnone : a[i.toNat]? = none := by rw [List.getElem?_eq_none_iff]; omega
      simp [evalE, h, pyListGet, h0, hnone]

/-- Witness for C3 on the array `[0, 0, 9]` bound to `B`: in-range read,
wrapped negative read, and failing out-of-range read. -/
theorem tb_c3_witness :
    c3state.env.arrays 'B' = some [0, 0, 9] ∧
    evalE c3state.env (.arr 'B' (.lit 2)) = .ok ([0, 0, 9].getD (2 : Int).toNat 0) ∧
    evalE c3state.env (.arr 'B' (.lit (-3))) =
      .ok ([0, 0, 9].getD ((-3) + (([0, 0, 9] : List Int).length : Int)).toNat 0) ∧
    evalE c3state.env (.arr 'B' (.lit 5)) = .error (exprErr (idxOobErr 'B')) :=
  ⟨by decide,
   (tb_c3 c3state.env 'B' [0, 0, 9] 2 (by decide)).1 (by decide) (by decide),
   (tb_c3 c3state.env 'B' [0, 0, 9] (-3) (by decide)).2.1 (by decide) (by decide),
   (tb_c3 c3state.env 'B' [0, 0, 9] 5 (by decide)).2.2 (Or.inr (by decide))⟩

/-- C4 counterexample: running `10 GOTO 99`, `20 PRINT 1` halts at the
missing target, printing exactly `Line 99 not found in program.` — the
report interpolates the target line 99 and never mentions the currently
executing line 10 (and line 20 is indeed not executed). -/
theorem tb_c4_counterexample :
    (execute_program 20 c4state none).output = [.lineNotFoundInProgram 99] ∧
    ((execute_program 20 c4state none).output.all fun m => !(m.mentionsNum 10)) = true := by
  refine ⟨by decide, by decide⟩

/-- C4 amended: a `GOTO` whose evaluated target is not among the stored
lines halts the run — the loop returns at once, emitting exactly one
`Line {target} not found in program.` message (the state is otherwise
untouched, so no further statement runs) — and that message names the
target line, not the currently executing one. -/
theorem tb_c4 (fuel : Nat) (st : Interp) (lines : List Nat) (pc : Nat)
    (h : pc < lines.length) (e : OExpr) (t : Int)
    (hs : st.program.lookup lines[pc] = some (.goto e))
    (he : eval_expression st.env e = .ok t)
    (hn : idxOfInt lines t = none) :
    progLoop (fuel + 1) st lines pc = st.emit (.lineNotFoundInProgram t) ∧
    (Msg.lineNotFoundInProgram t).mentionsNum t = true := by
  constructor
  · simp [progLoop, h, hs, he, hn]
  · simp [Msg.mentionsNum]

/-- Witness for C4 on the program `10 GOTO 99`, `20 PRINT 1`. -/
theorem tb_c4_witness :
    progLoop 5 c4state [10, 20] 0 = c4state.emit (.lineNotFoundInProgram 99) ∧
    (Msg.lineNotFoundInProgram 99).mentionsNum 99 = true :=
  tb_c4 4 c4state [10, 20] 0 (by decide) (some (.lit 99)) 99 (by decide) (by decide) (by decide)

lemma lookup_mem {β : Type} {k : Nat} {v : β} {p : List (Nat × β)}
    (h : p.lookup k = some v) : (k, v) ∈ p := by
  induction p with
  | nil => simp [List.lookup] at h
  | cons e rest ih =>
    obtain ⟨a, b⟩ := e
    by_cases hk : k = a
    · subst hk
      have hb : b = v := by simpa [List.lookup] using h
      subst hb
      exact List.mem_cons_self _ _
    · have hbeq : (k == a) = false := by simp [hk]
      have ht : List.lookup k rest = some v := by simpa [List.lookup, hbeq] using h
      exact List.mem_cons_of_mem _ (ih ht)

lemma cmd_print_frame (st : Interp) (e : OExpr) :
    (cmd_print st e).1.program = st.program ∧ (cmd_print st e).1.env = st.env := by
  unfold cmd_print
  split <;> exact ⟨rfl, rfl⟩

lemma cmd_let_scalar_program (st : Interp) (c : Char) (e : OExpr) :
    (cmd_let_scalar st c e).1.program = st.program := by
  unfold cmd_let_scalar
  split <;> rfl

lemma cmd_let_array_program (st : Interp) (c : Char) (idx e : OExpr) :
    (cmd_let_array st c idx e).1.program = st.program := by
  unfold cmd_let_array
  repeat' split
  all_goals rfl

lemma cmd_dim_program (st : Interp) (c : Char) (size : OExpr) :
    (cmd_dim st c size).1.program = st.program := by
  unfold cmd_dim
  split <;> rfl

lemma cmd_list_frame (st : Interp) :
    (cmd_list st).program = st.program ∧ (cmd_list st).env = st.env := ⟨rfl, rfl⟩

/-- Fuel induction behind C8: no statement other than `NEW` (and `LOAD`,
which is not storable) writes the program store, so running a `NEW`-free
program preserves it exactly. -/
lemma storePres : ∀ fuel : Nat,
    (∀ (st : Interp) (s : Stmt), noNew s = true → progNoNew st.program = true →
      (execute_statement fuel st s).1.program = st.program) ∧
    (∀ st : Interp, progNoNew st.program = true →
      (cmd_run fuel st).program = st.program) ∧
    (∀ (st : Interp) (start : Option Nat), progNoNew st.program = true →
      (execute_program fuel st start).program = st.program) ∧
    (∀ (st : Interp) (lines : List Nat) (pc : Nat), progNoNew st.program = true →
      (progLoop fuel st lines pc).program = st.program) := by
  intro fuel
  induction fuel with
  | zero =>
    refine ⟨fun st s hs hp => ?_, fun st hp => rfl, fun st start hp => rfl,
      fun st lines pc hp => rfl⟩
    cases s with
    | print e => simpa [execute_statement] using (cmd_print_frame st e).1
    | letS c e => simpa [execute_statement] using cmd_let_scalar_program st c e
    | letA c idx e => simpa [execute_statement] using cmd_let_array_program st c idx e
    | goto e => rfl
    | ifThen cnd tgt => rfl
    | dim c size => simpa [execute_statement] using cmd_dim_program st c size
    | endCmd => rfl
    | runCmd arg => rfl
    | listCmd => simpa [execute_statement] using (cmd_list_frame st).1
    | newCmd => simp [noNew] at hs
    | unknown w => rfl
  | succ f ih =>
    have hstmt : ∀ (st : Interp) (s : Stmt), noNew s = true → progNoNew st.program = true →
        (execute_statement (f + 1) st s).1.program = st.program := by
      intro st s hs hp
      cases s with
      | print e => simpa [execute_statement] using (cmd_print_frame st e).1
      | letS c e => simpa [execute_statement] using cmd_let_scalar_program st c e
      | letA c idx e => simpa [execute_statement] using cmd_let_array_program st c idx e
      | goto e => rfl
      | ifThen cnd tgt => rfl
      | dim c size => simpa [execute_statement] using cmd_dim_program st c size
      | endCmd => rfl
      | runCmd arg => simpa [execute_statement] using ih.2.1 st hp
      | listCmd => simpa [execute_statement] using (cmd_list_frame st).1
      | newCmd => simp [noNew] at hs
      | unknown w => rfl
    have hrun : ∀ st : Interp, progNoNew st.program = true →
        (cmd_run (f + 1) st).program = st.program := by
      intro st hp
      simpa [cmd_run] using ih.2.2.1 st none hp
    have hloop : ∀ (st : Interp) (lines : List Nat) (pc : Nat),
        progNoNew st.program = true →
        (progLoop (f + 1) st lines pc).program = st.program := by
      intro st lines pc hp
      rw [progLoop]
      by_cases hpc : pc < lines.length
      · rw [dif_pos hpc]
        have hstep : ∀ s2 : Stmt, noNew s2 = true →
            ((match execute_statement f st s2 with
              | (st2, none) => progLoop f st2 lines (pc + 1)
              | (st2, some m) => st2.emit (.errorOnLine lines[pc] m)).program
              = st.program) := by
          intro s2 hns2
          cases hex : execute_statement f st s2 with
          | mk st2 m =>
            have h2 : st2.program = st.program := by
              have h3 := ih.1 st s2 hns2 hp
              rw [hex] at h3
              exact h3
            cases m with
            | none =>
              have hp2 : progNoNew st2.program = true := by rw [h2]; exact hp
              rw [ih.2.2.2 st2 lines (pc + 1) hp2]
              exact h2
            | some msg => simpa [Interp.emit] using h2
        cases hlk : st.program.lookup lines[pc] with
        | none => rfl
        | some s =>
          have hmem : (lines[pc], s) ∈ st.program := lookup_mem hlk
          have hns : noNew s = true := (List.all_eq_true).mp hp _ hmem
          cases s with
          | goto e =>
            cases hev : eval_expression st.env e with
            | error m => simp [hev, Interp.emit]
            | ok t =>
              cases hidx : idxOfInt lines t with
              | some i =>
                simp only [hev, hidx]
                exact ih.2.2.2 st lines i hp
              | none => simp [hev, hidx, Interp.emit]
          | ifThen cnd tgt =>
            cases hev : eval_condition st.env cnd with
            | error m => simp [hev, Interp.emit]
            | ok b =>
              cases b with
              | true =>
                cases het : eval_expression st.env tgt with
                | error m => simp [hev, het, Interp.emit]
                | ok t =>
                  cases hidx : idxOfInt lines t with
                  | some i =>
                    simp only [hev, het, hidx, if_true]
                    exact ih.2.2.2 st lines i hp
                  | none => simp [hev, het, hidx, Interp.emit]
              | false =>
                simp only [hev, if_false]
                exact ih.2.2.2 st lines (pc + 1) hp
          | endCmd => rfl
          | print e => exact hstep (.print e) rfl
          | letS c e => exact hstep (.letS c e) rfl
          | letA c idx e => exact hstep (.letA c idx e) rfl
          | dim c size => exact hstep (.dim c size) rfl
          | runCmd arg => exact hstep (.runCmd arg) rfl
          | listCmd => exact hstep .listCmd rfl
          | newCmd => simp [noNew] at hns
          | unknown w => exact hstep (.unknown w) rfl
      · rw [dif_neg hpc]
    refine ⟨hstmt, hrun, fun st start hp => ?_, hloop⟩
    show (execute_program (f + 1) st start).program = st.program
    simp only [execute_program]
    by_cases he : st.program = []
    · rw [if_pos he]
    · rw [if_neg he]
      cases start with
      | none => exact ih.2.2.2 st _ 0 hp
      | some s2 =>
        cases hidx : idxOfInt (linesOf st.program) (s2 : Int) with
        | some i =>
          simp only [hidx]
          exact ih.2.2.2 st _ i hp
        | none => simp [hidx, Interp.emit]

/-- C8 counterexample: `RUN` does not leave the program store unchanged
for every program: running the stored program `10 NEW` executes `NEW`
mid-run, which clears the store. -/
theorem tb_c8_counterexample :
    c8state.program ≠ [] ∧ (execute_program 20 c8state none).program = [] := by
  refine ⟨by decide, by decide⟩

/-- C8 amended: `LIST` never mutates the program store, and `RUN`
preserves it for every program that contains no `NEW` statement (stored
`NEW` — or `LOAD`, which is not storable in this model — mutates it, as
the counterexample shows; direct `submit_line`, `NEW` and `LOAD` remain
the store's only other writers). -/
theorem tb_c8 :
    (∀ st : Interp, (cmd_list st).program = st.program) ∧
    (∀ (fuel : Nat) (st : Interp) (start : Option Nat),
      progNoNew st.program = true →
      (execute_program fuel st start).program = st.program) :=
  ⟨fun st => rfl, fun fuel st start h => (storePres fuel).2.2.1 st start h⟩

/-- Witness for C8 on the `NEW`-free program `10 PRINT 1`. -/
theorem tb_c8_witness :
    (cmd_list c8neutral).program = c8neutral.program ∧
    (progNoNew c8neutral.program = true ∧
     (execute_program 5 c8neutral none).program = c8neutral.program) :=
  ⟨tb_c8.1 c8neutral, by decide, tb_c8.2 5 c8neutral none (by decide)⟩

/-- Fuel induction behind C10: no statement other than `LET`, `DIM` and
`NEW` writes the variable environment (and `RUN` is neutral whenever the
program it re-runs is), so running such a program preserves the
environment (and the program store) exactly. -/
lemma envPres : ∀ fuel : Nat,
    (∀ (st : Interp) (s : Stmt), envNeutral s = true → progEnvNeutral st.program = true →
      (execute_statement fuel st s).1.env = st.env ∧
      (execute_statement fuel st s).1.program = st.program) ∧
    (∀ st : Interp, progEnvNeutral st.program = true →
      (cmd_run fuel st).env = st.env ∧ (cmd_run fuel st).program = st.program) ∧
    (∀ (st : Interp) (start : Option Nat), progEnvNeutral st.program = true →
      (execute_program fuel st start).env = st.env ∧
      (execute_program fuel st start).program = st.program) ∧
    (∀ (st : Interp) (lines : List Nat) (pc : Nat), progEnvNeutral st.program = true →
      (progLoop fuel st lines pc).env = st.env ∧
      (progLoop fuel st lines pc).program = st.program) := by
  intro fuel
  induction fuel with
  | zero =>
    refine ⟨fun st s hs hp => ?_, fun st hp => ⟨rfl, rfl⟩, fun st start hp => ⟨rfl, rfl⟩,
      fun st lines pc hp => ⟨rfl, rfl⟩⟩
    cases s with
    | print e => simpa [execute_statement, and_comm] using cmd_print_frame st e
    | letS c e => simp [envNeutral] at hs
    | letA c idx e => simp [envNeutral] at hs
    | goto e => exact ⟨rfl, rfl⟩
    | ifThen cnd tgt => exact ⟨rfl, rfl⟩
    | dim c size => simp [envNeutral] at hs
    | endCmd => exact ⟨rfl, rfl⟩
    | runCmd arg => exact ⟨rfl, rfl⟩
    | listCmd => simpa [execute_statement, and_comm] using cmd_list_frame st
    | newCmd => simp [envNeutral] at hs
    | unknown w => exact ⟨rfl, rfl⟩
  | succ f ih =>
    have hstmt : ∀ (st : Interp) (s : Stmt), envNeutral s = true →
        progEnvNeutral st.program = true →
        (execute_statement (f + 1) st s).1.env = st.env ∧
        (execute_statement (f + 1) st s).1.program = st.program := by
      intro st s hs hp
      cases s with
      | print e => simpa [execute_statement, and_comm] using cmd_print_frame st e
      | letS c e => simp [envNeutral] at hs
      | letA c idx e => simp [envNeutral] at hs
      | goto e => exact ⟨rfl, rfl⟩
      | ifThen cnd tgt => exact ⟨rfl, rfl⟩
      | dim c size => simp [envNeutral] at hs
      | endCmd => exact ⟨rfl, rfl⟩
      | runCmd arg => simpa [execute_statement] using ih.2.1 st hp
      | listCmd => simpa [execute_statement, and_comm] using cmd_list_frame st
      | newCmd => simp [envNeutral] at hs
      | unknown w => exact ⟨rfl, rfl⟩
    have hrun : ∀ st : Interp, progEnvNeutral st.program = true →
        (cmd_run (f + 1) st).env = st.env ∧ (cmd_run (f + 1) st).program = st.program := by
      intro st hp
      simpa [cmd_run] using ih.2.2.1 st none hp
    have hloop : ∀ (st : Interp) (lines : List Nat) (pc : Nat),
        progEnvNeutral st.program = true →
        (progLoop (f + 1) st lines pc).env = st.env ∧
        (progLoop (f + 1) st lines pc).program = st.program := by
      intro st lines pc hp
      rw [progLoop]
      by_cases hpc : pc < lines.length
      · rw [dif_pos hpc]
        have hstep : ∀ s2 : Stmt, envNeutral s2 = true →
            ((match execute_statement f st s2 with
              | (st2, none) => progLoop f st2 lines (pc + 1)
              | (st2, some m) => st2.emit (.errorOnLine lines[pc] m)).env
              = st.env ∧
             (match execute_statement f st s2 with
              | (st2, none) => progLoop f st2 lines (pc + 1)
              | (st2, some m) => st2.emit (.errorOnLine lines[pc] m)).program
              = st.program) := by
          intro s2 hns2
          cases hex : execute_statement f st s2 with
          | mk st2 m =>
            have h2 := ih.1 st s2 hns2 hp
            rw [hex] at h2
            cases m with
            | none =>
              have hp2 : progEnvNeutral st2.program = true := by
                rw [h2.2]
                exact hp
              have h3 := ih.2.2.2 st2 lines (pc + 1) hp2
              exact ⟨h3.1.trans h2.1, h3.2.trans h2.2⟩
            | some msg => simpa [Interp.emit] using h2
        cases hlk : st.program.lookup lines[pc] with
        | none => exact ⟨rfl, rfl⟩
        | some s =>
          have hmem : (lines[pc], s) ∈ st.program := lookup_mem hlk
          have hns : envNeutral s = true := (List.all_eq_true).mp hp _ hmem
          cases s with
          | goto e =>
            cases hev : eval_expression st.env e with
            | error m => simp [hev, Interp.emit]
            | ok t =>
              cases hidx : idxOfInt lines t with
              | some i =>
                simp only [hev, hidx]
                exact ih.2.2.2 st lines i hp
              | none => simp [hev, hidx, Interp.emit]
          | ifThen cnd tgt =>
            cases hev : eval_condition st.env cnd with
            | error m => simp [hev, Interp.emit]
            | ok b =>
              cases b with
              | true =>
                cases het : eval_expression st.env tgt with
                | error m => simp [hev, het, Interp.emit]
                | ok t =>
                  cases hidx : idxOfInt lines t with
                  | some i =>
                    simp only [hev, het, hidx, if_true]
                    exact ih.2.2.2 st lines i hp
                  | none => simp [hev, het, hidx, Interp.emit]
              | false =>
                simp only [hev, if_false]
                exact ih.2.2.2 st lines (pc + 1) hp
          | endCmd => exact ⟨rfl, rfl⟩
          | print e => exact hstep (.print e) rfl
          | letS c e => simp [envNeutral] at hns
          | letA c idx e => simp [envNeutral] at hns
          | dim c size => simp [envNeutral] at hns
          | runCmd arg => exact hstep (.runCmd arg) rfl
          | listCmd => exact hstep .listCmd rfl
          | newCmd => simp [envNeutral] at hns
          | unknown w => exact hstep (.unknown w) rfl
      · rw [dif_neg hpc]
        exact ⟨rfl, rfl⟩
    refine ⟨hstmt, hrun, fun st start hp => ?_, hloop⟩
    show (execute_program (f + 1) st start).env = st.env ∧
      (execute_program (f + 1) st start).program = st.program
    simp only [execute_program]
    by_cases he : st.program = []
    · rw [if_pos he]
      exact ⟨rfl, rfl⟩
    · rw [if_neg he]
      cases start with
      | none => exact ih.2.2.2 st _ 0 hp
      | some s2 =>
        cases hidx : idxOfInt (linesOf st.program) (s2 : Int) with
        | some i =>
          simp only [hidx]
          exact ih.2.2.2 st _ i hp
        | none => simp [hidx, Interp.emit]

/-- C10: `RUN` never resets the variable environment.  (1) Running any
program whose statements are all environment-neutral (no `LET`, `DIM` or
`NEW`) returns with the environment exactly as it was, from any start
line.  (2) Values set before the run are visible to it: a program that is
just `PRINT c` prints the pre-run scalar value of `c`, and one that is
just `PRINT c(0)` prints the pre-run first array element, in both cases
leaving the state otherwise untouched.  (3) Of the directly executable
statements, only `LET`, `DIM` and `NEW` (and `RUN`, through the program it
runs) can modify the environment: every other statement preserves it. -/
theorem tb_c10 :
    (∀ (fuel : Nat) (st : Interp) (start : Option Nat),
      progEnvNeutral st.program = true →
      (execute_program fuel st start).env = st.env) ∧
    (∀ (f : Nat) (env : Env) (out : List Msg) (c : Char) (n : Nat),
      env.arrays c = none →
      execute_program (f + 2) ⟨[(n, .print (some (.var c)))], env, out⟩ none =
        ⟨[(n, .print (some (.var c)))], env, out ++ [.printed (env.vars c)]⟩) ∧
    (∀ (f : Nat) (env : Env) (out : List Msg) (c : Char) (n : Nat) (v : Int)
      (rest : List Int), env.arrays c = some (v :: rest) →
      execute_program (f + 2) ⟨[(n, .print (some (.arr c (.lit 0))))], env, out⟩ none =
        ⟨[(n, .print (some (.arr c (.lit 0))))], env, out ++ [.printed v]⟩) ∧
    (∀ (fuel : Nat) (st : Interp) (s : Stmt), directEnvNeutral s = true →
      (execute_statement fuel st s).1.env = st.env) := by
  have hstop : ∀ (g : Nat) (st2 : Interp) (n : Nat), progLoop g st2 [n] 1 = st2 := by
    intro g st2 n
    cases g with
    | zero => rfl
    | succ g2 =>
      rw [progLoop]
      rw [dif_neg (by simp)]
  refine ⟨fun fuel st start h => ((envPres fuel).2.2.1 st start h).1,
    fun f env out c n h => ?_, fun f env out c n v rest h => ?_,
    fun fuel st s h => ?_⟩
  · show progLoop (f + 1) ⟨[(n, .print (some (.var c)))], env, out⟩ [n] 0 = _
    rw [progLoop]
    rw [dif_pos (by simp : (0 : Nat) < [n].length)]
    have hex : execute_statement f ⟨[(n, .print (some (.var c)))], env, out⟩
        (.print (some (.var c))) =
        (⟨[(n, .print (some (.var c)))], env, out ++ [.printed (env.vars c)]⟩, none) := by
      cases f <;> simp [execute_statement, cmd_print, eval_expression, evalE, h, Interp.emit]
    have hlk : List.lookup (([n] : List Nat)[0]) [(n, Stmt.print (some (.var c)))] =
        some (.print (some (.var c))) := by
      show List.lookup n [(n, Stmt.print (some (.var c)))] = _
      simp [List.lookup]
    simp only [hlk]
    simp only [hex]
    exact hstop f _ n
  · show progLoop (f + 1) ⟨[(n, .print (some (.arr c (.lit 0))))], env, out⟩ [n] 0 = _
    rw [progLoop]
    rw [dif_pos (by simp : (0 : Nat) < [n].length)]
    have hex : execute_statement f ⟨[(n, .print (some (.arr c (.lit 0))))], env, out⟩
        (.print (some (.arr c (.lit 0)))) =
        (⟨[(n, .print (some (.arr c (.lit 0))))], env, out ++ [.printed v]⟩, none) := by
      cases f <;>
        simp [execute_statement, cmd_print, eval_expression, evalE, h, pyListGet, Interp.emit]
    have hlk : List.lookup (([n] : List Nat)[0]) [(n, Stmt.print (some (.arr c (.lit 0))))] =
        some (.print (some (.arr c (.lit 0)))) := by
      show List.lookup n [(n, Stmt.print (some (.arr c (.lit 0))))] = _
      simp [List.lookup]
    simp only [hlk]
    simp only [hex]
    exact hstop f _ n
  · cases s with
    | print e => cases fuel <;> simpa [execute_statement] using (cmd_print_frame st e).2
    | letS c e => simp [directEnvNeutral] at h
    | letA c idx e => simp [directEnvNeutral] at h
    | goto e => cases fuel <;> rfl
    | ifThen cnd tgt => cases fuel <;> rfl
    | dim c size => simp [directEnvNeutral] at h
    | endCmd => cases fuel <;> rfl
    | runCmd arg => simp [directEnvNeutral] at h
    | listCmd => cases fuel <;> simpa [execute_statement] using (cmd_list_frame st).2
    | newCmd => simp [directEnvNeutral] at h
    | unknown w => cases fuel <;> rfl

/-- Witness for C10 on the program `10 PRINT A` with `A = 7` set before
the run. -/
theorem tb_c10_witness :
    (progEnvNeutral c10state.program = true ∧
     (execute_program 5 c10state none).env = c10state.env) ∧
    (c10env.arrays 'A' = none ∧
     execute_program 5 ⟨[(10, .print (some (.var 'A')))], c10env, []⟩ none =
       ⟨[(10, .print (some (.var 'A')))], c10env, [.printed (c10env.vars 'A')]⟩) ∧
    (directEnvNeutral .listCmd = true ∧
     (execute_statement 3 c10state .listCmd).1.env = c10state.env) :=
  ⟨⟨by decide, tb_c10.1 5 c10state none (by decide)⟩,
   ⟨by decide, tb_c10.2.1 3 c10env [] 'A' 10 (by decide)⟩,
   ⟨by decide, tb_c10.2.2.2 3 c10state .listCmd (by decide)⟩⟩

namespace ProgramText

lemma digitChar_isDigit (d : Nat) : (digitChar d).isDigit = true := by
  rcases d with _|_|_|_|_|_|_|_|_|d <;> rfl

lemma digitChar_not_sp (d : Nat) : isSp (digitChar d) = false := by
  rcases d with _|_|_|_|_|_|_|_|_|d <;> rfl

lemma digitVal_digitChar (d : Nat) (h : d < 10) : digitVal (digitChar d) = d := by
  interval_cases d <;> rfl

lemma charsToNat_append (xs : Chars) (c : Char) :
    charsToNat (xs ++ [c]) = digitVal c + 10 * charsToNat xs := by
  simp [charsToNat, Nat.ofDigits_cons]

lemma charsToNat_natReprAux : ∀ fuel n : Nat, n ≤ fuel →
    charsToNat (natReprAux fuel n) = n := by
  intro fuel
  induction fuel with
  | zero =>
    intro n hn
    have h0 : n = 0 := by omega
    subst h0
    rfl
  | succ f ih =>
    intro n hn
    by_cases h0 : n = 0
    · subst h0
      rfl
    · rw [natReprAux, if_neg h0, charsToNat_append]
      have hlt : n / 10 ≤ f := by
        have := Nat.div_lt_self (Nat.pos_of_ne_zero h0) (by norm_num : (1 : Nat) < 10)
        omega
      rw [ih _ hlt, digitVal_digitChar _ (Nat.mod_lt _ (by norm_num))]
      omega

/-- Source `int(str(n)) = n`: the decimal rendering re-parses to the same line
number. -/
lemma charsToNat_natRepr (n : Nat) : charsToNat (natRepr n) = n := by
  unfold natRepr
  by_cases h : n = 0
  · subst h
    decide
  · rw [if_neg h]
    exact charsToNat_natReprAux n n le_rfl

lemma mem_natReprAux {c : Char} : ∀ {fuel n : Nat}, c ∈ natReprAux fuel n →
    ∃ d, c = digitChar d := by
  intro fuel
  induction fuel with
  | zero => intro n h; simp [natReprAux] at h
  | succ f ih =>
    intro n h
    rw [natReprAux] at h
    by_cases h0 : n = 0
    · rw [if_pos h0] at h
      simp at h
    · rw [if_neg h0] at h
      rcases List.mem_append.mp h with h1 | h2
      · exact ih h1
      · simp at h2
        exact ⟨n % 10, h2⟩

lemma mem_natRepr {c : Char} {n : Nat} (h : c ∈ natRepr n) : ∃ d, c = digitChar d := by
  unfold natRepr at h
  by_cases h0 : n = 0
  · rw [if_pos h0] at h
    simp at h
    exact ⟨0, by rw [h]; rfl⟩
  · rw [if_neg h0] at h
    exact mem_natReprAux h

lemma natRepr_ne_nil (n : Nat) : natRepr n ≠ [] := by
  unfold natRepr
  by_cases h0 : n = 0
  · rw [if_pos h0]
    simp
  · rw [if_neg h0]
    cases n with
    | zero => exact absurd rfl h0
    | succ m =>
      rw [natReprAux, if_neg h0]
      simp

lemma dropWhile_eq_self_of_head {p : Char → Bool} {l : Chars}
    (h : l.head?.all (fun a => !p a) = true) : l.dropWhile p = l := by
  cases l with
  | nil => rfl
  | cons a t =>
    simp at h
    simp [List.dropWhile_cons, h]

lemma trimC_eq_self {l : Chars} (h1 : l.head?.all (fun a => !isSp a) = true)
    (h2 : l.getLast?.all (fun a => !isSp a) = true) : trimC l = l := by
  unfold trimC
  rw [dropWhile_eq_self_of_head h1]
  rw [dropWhile_eq_self_of_head (by rw [List.head?_reverse]; exact h2)]
  exact List.reverse_reverse l

lemma wfCode_parts {c : Chars} (hw : wfCode c = true) :
    c ≠ [] ∧ c.head?.all (fun a => !isSp a) = true ∧
      c.getLast?.all (fun a => !isSp a) = true := by
  simp only [wfCode, Bool.and_eq_true] at hw
  refine ⟨?_, hw.1.2, hw.2⟩
  intro he
  rw [he] at hw
  simp at hw

lemma trimC_space_cons {c : Chars} (hw : wfCode c = true) : trimC (' ' :: c) = c := by
  obtain ⟨hne, hh, hl⟩ := wfCode_parts hw
  unfold trimC
  rw [show List.dropWhile isSp (' ' :: c) = List.dropWhile isSp c from by
    simp [List.dropWhile_cons, isSp]]
  rw [dropWhile_eq_self_of_head hh]
  rw [dropWhile_eq_self_of_head (by rw [List.head?_reverse]; exact hl)]
  exact List.reverse_reverse c

lemma takeWhile_append_cons {p : Char → Bool} {l : Chars} {b : Char} {r : Chars}
    (hl : ∀ x ∈ l, p x = true) (hb : p b = false) :
    (l ++ b :: r).takeWhile p = l := by
  induction l with
  | nil => simp [List.takeWhile_cons, hb]
  | cons a t ih =>
    have ha : p a = true := hl a (List.mem_cons_self _ _)
    simp only [List.cons_append, List.takeWhile_cons, ha, if_true]
    rw [ih (fun x hx => hl x (List.mem_cons_of_mem _ hx))]

/-- Feeding one `f"{line_num} {code}"` line that `cmd_save` wrote back
through `process_input` re-stores exactly that line. -/
lemma process_input_line {q : Store} {n : Nat} {c : Chars} (hw : wfCode c = true) :
    process_input q (natRepr n ++ ' ' :: c) = (storeSet q n c, none) := by
  obtain ⟨hcne, hch, hcl⟩ := wfCode_parts hw
  obtain ⟨x, xs, hx⟩ : ∃ x xs, natRepr n = x :: xs := by
    cases hnr : natRepr n with
    | nil => exact absurd hnr (natRepr_ne_nil n)
    | cons x xs => exact ⟨x, xs, rfl⟩
  have hhead : (natRepr n ++ ' ' :: c).head?.all (fun a => !isSp a) = true := by
    have hxm : x ∈ natRepr n := by rw [hx]; exact List.mem_cons_self _ _
    obtain ⟨d, hd⟩ := mem_natRepr hxm
    rw [hx]
    simp [hd, digitChar_not_sp d]
  have hy : ∃ y, c.getLast? = some y := by
    cases hc : c.getLast? with
    | none => exact absurd (List.getLast?_eq_none_iff.mp hc) hcne
    | some y => exact ⟨y, rfl⟩
  obtain ⟨y, hy⟩ := hy
  have hlast : (natRepr n ++ ' ' :: c).getLast?.all (fun a => !isSp a) = true := by
    rw [List.getLast?_append]
    rw [show (' ' :: c).getLast? = some y from by
      rw [show (' ' :: c) = [' '] ++ c from rfl, List.getLast?_append, hy]
      rfl]
    rw [hy] at hcl
    simpa using hcl
  have htrim : trimC (natRepr n ++ ' ' :: c) = natRepr n ++ ' ' :: c :=
    trimC_eq_self hhead hlast
  have hdig : (natRepr n ++ ' ' :: c).takeWhile Char.isDigit = natRepr n := by
    refine takeWhile_append_cons (fun z hz => ?_) rfl
    obtain ⟨d, hd⟩ := mem_natRepr hz
    rw [hd]
    exact digitChar_isDigit d
  unfold process_input
  rw [htrim, hdig, List.drop_left, trimC_space_cons hw, charsToNat_natRepr]
  rw [if_neg (by simp), if_neg (natRepr_ne_nil n), if_neg hcne]

lemma storeSet_append {q : Store} {n : Nat} {c : Chars} (h : n ∉ q.map Prod.fst) :
    storeSet q n c = q ++ [(n, c)] := by
  induction q with
  | nil => rfl
  | cons e rest ih =>
    obtain ⟨a, b⟩ := e
    simp only [List.map_cons, List.mem_cons, not_or] at h
    rw [storeSet, if_neg (Ne.symm h.1), ih h.2]
    rfl

lemma load_map : ∀ es q : Store, (∀ e ∈ es, wfCode e.2 = true) →
    (es.map (fun e => natRepr e.1 ++ ' ' :: e.2)).foldl
      (fun q2 line => (process_input q2 line).1) q =
    es.foldl (fun q2 e => storeSet q2 e.1 e.2) q := by
  intro es
  induction es with
  | nil => intro q _; rfl
  | cons e rest ih =>
    intro q h
    simp only [List.map_cons, List.foldl_cons]
    rw [show (process_input q (natRepr e.1 ++ ' ' :: e.2)).1 = storeSet q e.1 e.2 from by
      rw [process_input_line (h e (List.mem_cons_self _ _))]]
    exact ih _ (fun x hx => h x (List.mem_cons_of_mem _ hx))

lemma foldl_storeSet : ∀ {es : Store} (q : Store), (es.map Prod.fst).Nodup →
    (∀ k ∈ es.map Prod.fst, k ∉ q.map Prod.fst) →
    es.foldl (fun q2 e => storeSet q2 e.1 e.2) q = q ++ es := by
  intro es
  induction es with
  | nil => intro q _ _; simp
  | cons e rest ih =>
    intro q h1 h2
    simp only [List.foldl_cons]
    have he1 : e.1 ∉ q.map Prod.fst := h2 e.1 (by simp)
    simp only [List.map_cons, List.nodup_cons] at h1
    rw [storeSet_append he1]
    rw [ih (q ++ [e]) h1.2 ?hdisj]
    · simp
    case hdisj =>
      intro k hk
      simp only [List.map_append, List.mem_append]
      rintro (hkq | hke)
      · exact h2 k (by simp [hk]) hkq
      · simp at hke
        rw [hke] at hk
        exact h1.1 hk

lemma mem_insertSorted {x n : Nat} : ∀ {l : List Nat},
    x ∈ insertSorted n l ↔ x = n ∨ x ∈ l := by
  intro l
  induction l with
  | nil => simp [insertSorted]
  | cons m rest ih =>
    rw [insertSorted]
    by_cases h : n ≤ m
    · rw [if_pos h]
      simp
    · rw [if_neg h]
      simp only [List.mem_cons, ih]
      tauto

lemma mem_sortNats {x : Nat} : ∀ {l : List Nat}, x ∈ sortNats l ↔ x ∈ l := by
  intro l
  induction l with
  | nil => simp [sortNats]
  | cons a t ih =>
    show x ∈ insertSorted a (sortNats t) ↔ _
    rw [mem_insertSorted]
    simp [ih]

lemma nodup_insertSorted {n : Nat} : ∀ {l : List Nat}, l.Nodup → n ∉ l →
    (insertSorted n l).Nodup := by
  intro l
  induction l with
  | nil => intro _ _; simp [insertSorted]
  | cons m rest ih =>
    intro hnd hn
    simp only [List.mem_cons, not_or] at hn
    rw [insertSorted]
    by_cases h : n ≤ m
    · rw [if_pos h]
      exact List.nodup_cons.mpr
        ⟨by simp only [List.mem_cons, not_or]; exact ⟨hn.1, hn.2⟩, hnd⟩
    · rw [if_neg h]
      simp only [List.nodup_cons] at hnd
      simp only [List.nodup_cons]
      refine ⟨?_, ih hnd.2 hn.2⟩
      rw [mem_insertSorted]
      rintro (hc | hc)
      · exact hn.1 hc.symm
      · exact hnd.1 hc

lemma nodup_sortNats : ∀ {l : List Nat}, l.Nodup → (sortNats l).Nodup := by
  intro l
  induction l with
  | nil => intro _; simp [sortNats]
  | cons a t ih =>
    intro h
    simp only [List.nodup_cons] at h
    show (insertSorted a (sortNats t)).Nodup
    exact nodup_insertSorted (ih h.2) (fun hc => h.1 (mem_sortNats.mp hc))

lemma lookup_eq_none_iff {β : Type} {p : List (Nat × β)} {k : Nat} :
    p.lookup k = none ↔ k ∉ p.map Prod.fst := by
  induction p with
  | nil => simp [List.lookup]
  | cons e rest ih =>
    obtain ⟨a, b⟩ := e
    by_cases h : k = a
    · subst h
      simp [List.lookup]
    · have hbeq : (k == a) = false := by simp [h]
      simp [List.lookup, hbeq, ih, h]

lemma lookup_eq_some_of_mem {β : Type} {p : List (Nat × β)} {k : Nat} {v : β}
    (hnd : (p.map Prod.fst).Nodup) (hm : (k, v) ∈ p) : p.lookup k = some v := by
  induction p with
  | nil => simp at hm
  | cons e rest ih =>
    obtain ⟨a, b⟩ := e
    simp only [List.map_cons, List.nodup_cons] at hnd
    rcases List.mem_cons.mp hm with he | hm2
    · simp only [Prod.mk.injEq] at he
      obtain ⟨h1, h2⟩ := he
      subst h1
      subst h2
      simp [List.lookup]
    · have hka : k ≠ a := by
        intro hc
        subst hc
        exact hnd.1 (List.mem_map_of_mem Prod.fst hm2)
      have hbeq : (k == a) = false := by simp [hka]
      simp only [List.lookup, hbeq]
      exact ih hnd.2 hm2

lemma entriesSorted_keys {p : Store} :
    (entriesSorted p).map Prod.fst = sortNats (p.map Prod.fst) := by
  unfold entriesSorted
  have hgen : ∀ ks : List Nat, (∀ k ∈ ks, k ∈ p.map Prod.fst) →
      ((ks.filterMap (fun n => (p.lookup n).map (fun c => (n, c)))).map Prod.fst) = ks := by
    intro ks
    induction ks with
    | nil => intro _; rfl
    | cons k rest ih =>
      intro h
      have hk : k ∈ p.map Prod.fst := h k (List.mem_cons_self _ _)
      obtain ⟨c, hc⟩ : ∃ c, p.lookup k = some c := by
        cases hq : p.lookup k with
        | none => exact absurd (lookup_eq_none_iff.mp hq) (by simpa using hk)
        | some c => exact ⟨c, rfl⟩
      simp only [List.filterMap_cons, hc]
      simp [ih (fun z hz => h z (List.mem_cons_of_mem _ hz))]
  exact hgen _ (fun k hk => mem_sortNats.mp hk)

lemma mem_entriesSorted {p : Store} {k : Nat} {v : Chars} :
    (k, v) ∈ entriesSorted p ↔
      k ∈ sortNats (p.map Prod.fst) ∧ p.lookup k = some v := by
  unfold entriesSorted
  rw [List.mem_filterMap]
  constructor
  · rintro ⟨a, ha, hfa⟩
    cases hq : p.lookup a with
    | none => rw [hq] at hfa; simp at hfa
    | some c =>
      rw [hq] at hfa
      simp only [Option.map_some', Option.some.injEq, Prod.mk.injEq] at hfa
      obtain ⟨h1, h2⟩ := hfa
      subst h1
      subst h2
      exact ⟨ha, hq⟩
  · rintro ⟨h1, h2⟩
    exact ⟨k, h1, by rw [h2]; rfl⟩

/-- C7: the save/load round trip reproduces the program store exactly:
for a well-formed store (unique line numbers, nonempty stripped statement
texts — the invariant `process_input` maintains), clearing and re-feeding
the `f"{line_num} {code}"` lines written by `cmd_save` through
`process_input` yields a store with the same mapping from line numbers to
statement texts. -/
theorem tb_c7 (p : Store) (hw : wfStore p) (n : Nat) :
    (cmd_load (serialize p)).lookup n = p.lookup n := by
  obtain ⟨hnd, hwc⟩ := hw
  have hwe : ∀ e ∈ entriesSorted p, wfCode e.2 = true := by
    intro e he
    obtain ⟨k, v⟩ := e
    rw [mem_entriesSorted] at he
    exact hwc _ (lookup_mem he.2)
  have hkeys : (entriesSorted p).map Prod.fst = sortNats (p.map Prod.fst) :=
    entriesSorted_keys
  have hkeysnd : ((entriesSorted p).map Prod.fst).Nodup := by
    rw [hkeys]
    exact nodup_sortNats hnd
  have hload : cmd_load (serialize p) = entriesSorted p := by
    unfold cmd_load serialize
    rw [load_map (entriesSorted p) [] hwe]
    rw [foldl_storeSet [] hkeysnd (by intro k _; simp)]
    simp
  rw [hload]
  cases hq : p.lookup n with
  | none =>
    rw [lookup_eq_none_iff, hkeys]
    intro hc
    exact (lookup_eq_none_iff.mp hq) (mem_sortNats.mp hc)
  | some c =>
    apply lookup_eq_some_of_mem hkeysnd
    rw [mem_entriesSorted]
    refine ⟨mem_sortNats.mpr ?_, hq⟩
    exact List.mem_map_of_mem Prod.fst (lookup_mem hq)

end ProgramText

/-- Witness for C7 on the two-line store `20 PRINT A`, `10 LET A = 5`. -/
theorem tb_c7_witness :
    ProgramText.wfStore c7store ∧
    (ProgramText.cmd_load (ProgramText.serialize c7store)).lookup 20 =
      c7store.lookup 20 :=
  ⟨⟨by decide, by decide⟩, ProgramText.tb_c7 c7store ⟨by decide, by decide⟩ 20⟩

end TinyBasic
